import Mathlib

/-!
Verification development for the places-to-LevelDB conversion experiment
(`convert-places-db.js`).  The JavaScript program is shallowly embedded:
each slurp/transform phase becomes a pure Lean function over explicit row
lists and association-list maps (JavaScript objects are modelled as
insertion-ordered association lists), and code paths that throw in
JavaScript (reading a property of `undefined`) return `Except.error`.
-/

/-! ## JavaScript object and string primitives -/

/-- Property read on a JavaScript object (insertion-ordered association
list); `none` models `undefined`.  Keys are unique by construction because
`jsoSet` replaces in place. -/
def jsoGet {κ α : Type} [DecidableEq κ] (m : List (κ × α)) (k : κ) : Option α :=
  match m with
  | [] => none
  | (k', v) :: rest => if k' = k then some v else jsoGet rest k

/-- Property write on a JavaScript object: replace the binding in place if
the key is present (preserving insertion order), otherwise append it. -/
def jsoSet {κ α : Type} [DecidableEq κ] (m : List (κ × α)) (k : κ) (v : α) : List (κ × α) :=
  match m with
  | [] => [(k, v)]
  | (k', v') :: rest => if k' = k then (k', v) :: rest else (k', v') :: jsoSet rest k v

/-- JavaScript string `<` on two character lists: code-unit lexicographic
order, with a proper prefix ordered before any extension. -/
def charListLt : List Char → List Char → Bool
  | [], [] => false
  | [], _ :: _ => true
  | _ :: _, [] => false
  | a :: as, b :: bs => if a < b then true else if b < a then false else charListLt as bs

/-- JavaScript string comparison `s < t` (the order LevelDB keys are scanned in). -/
def jsStrLt (s t : String) : Bool := charListLt s.data t.data

/-- A JavaScript word character, as matched by the character class in the
regular expression split used on titles. -/
def isWordChar (c : Char) : Bool := c.isAlphanum || c = '_'

/-- Split a character list on maximal runs of non-word characters, the
semantics of `String.prototype.split` with a one-or-more non-word-character
regular expression: runs collapse to one separator, and leading or trailing
separators contribute empty segments.  The `Option` accumulator is `none`
while inside a separator run. -/
def splitRuns : List Char → Option (List Char) → List (List Char)
  | [], some acc => [acc.reverse]
  | [], none => [[]]
  | c :: cs, some acc =>
    if isWordChar c then splitRuns cs (some (c :: acc))
    else acc.reverse :: splitRuns cs none
  | c :: cs, none =>
    if isWordChar c then splitRuns cs (some [c]) else splitRuns cs none

/-- `title.split(/\W+/g)` from `extractTermsForPlace`. -/
def splitNonWord (s : String) : List String :=
  (splitRuns s.data (some [])).map (fun l => String.mk l)

/-- Split on every occurrence of a separator character, keeping empty
segments: the semantics of `hostname.split('.')`. -/
def splitOnCharAux : List Char → Char → List Char → List (List Char)
  | [], _, acc => [acc.reverse]
  | c :: cs, sep, acc =>
    if c = sep then acc.reverse :: splitOnCharAux cs sep []
    else splitOnCharAux cs sep (c :: acc)

/-- `s.split(sep)` for a single-character separator. -/
def splitOnChar (s : String) (sep : Char) : List String :=
  (splitOnCharAux s.data sep []).map (fun l => String.mk l)

/-- `s.toLowerCase()` (ASCII, which is all the terms the program lowercases). -/
def jsToLower (s : String) : String := String.mk (s.data.map Char.toLower)

/-! ## Lexicographic codec (source lines 165-194) -/

/-- The zero-padding pool string from the source. -/
def ZEROES : String := "0000000000000000000000000000000"

/-- The nines pool string from the source (declared alongside `ZEROES`). -/
def NINES : String := "9999999999999999999999999999999"

/-- `invertAndPadNumber(val, max, digits)`: stringify `max - val` in decimal
and left-pad with zeroes up to `digits` characters.  `substring(0, n)` with
a negative or oversized `n` clamps exactly like `String.take` on the
31-character pool. -/
def invertAndPadNumber (val max : Int) (digits : Nat) : String :=
  let unpadded := toString (max - val)
  ZEROES.take (digits - unpadded.length) ++ unpadded

/-- `Date.UTC(2000, 0, 1)` in milliseconds. -/
def OLDEST_LEGAL_DATE : Int := 946684800000

/-- `Date.UTC(2031, 0, 1)` in milliseconds. -/
def MOST_FUTURE_LEGAL_DATE : Int := 1925078400000

/-- `DATE_DIGITS`: the decimal width of the legal date span, as computed in
the source from the difference of the two bounds. -/
def DATE_DIGITS : Nat := (toString (MOST_FUTURE_LEGAL_DATE - OLDEST_LEGAL_DATE)).length

/-- `lexiformTimestamp(val)`: offset against the epoch floor, then invert
and pad.  Note the source passes `MOST_FUTURE_LEGAL_DATE` itself as the
maximum, not the span `MOST_FUTURE_LEGAL_DATE - OLDEST_LEGAL_DATE` that
`DATE_DIGITS` was sized for. -/
def lexiformTimestamp (val : Int) : String :=
  invertAndPadNumber (val - OLDEST_LEGAL_DATE) MOST_FUTURE_LEGAL_DATE DATE_DIGITS

/-! ## Annotation join index (source lines 267-327) -/

/-- The payload columns shared by `moz_annos` and `moz_items_annos`,
as copied into the in-memory annotation value object. -/
structure AnnoValue where
  mimeType : String
  content : String
  flags : Int
  expiration : Int
  type : Int
  dateAdded : Int
  lastModified : Int
deriving DecidableEq, Repr

/-- A JavaScript object mapping annotation names to annotation values. -/
def AnnoDict : Type := List (String × AnnoValue)

instance : DecidableEq AnnoDict := by
  unfold AnnoDict
  infer_instance

instance : Repr AnnoDict := by
  unfold AnnoDict
  infer_instance

/-- A `moz_annos` row (place annotation). -/
structure AnnoRow where
  place_id : Nat
  anno_attribute_id : Nat
  mime_type : String
  content : String
  flags : Int
  expiration : Int
  type : Int
  dateAdded : Int
  lastModified : Int
deriving DecidableEq, Repr

/-- A `moz_items_annos` row (bookmark annotation). -/
structure ItemAnnoRow where
  item_id : Nat
  anno_attribute_id : Nat
  mime_type : String
  content : String
  flags : Int
  expiration : Int
  type : Int
  dateAdded : Int
  lastModified : Int
deriving DecidableEq, Repr

/-- Resolve an annotation attribute id through `annoAttribsById`; a missing
id dereferences to `undefined`, which JavaScript coerces to the property
key string shown here. -/
def annoNameFor (annoAttribsById : List (Nat × String)) (attrId : Nat) : String :=
  match jsoGet annoAttribsById attrId with
  | some n => n
  | none => "undefined"

/-- One `moz_annos` row of `slurpAnnotations`: fetch (or create and store)
the per-place annotation object and set the resolved name on it. -/
def slurpAnnotationsStep (annoAttribsById : List (Nat × String))
    (annotationsByPlaceId : List (Nat × AnnoDict)) (row : AnnoRow) : List (Nat × AnnoDict) :=
  let annos := (jsoGet annotationsByPlaceId row.place_id).getD []
  let v : AnnoValue :=
    { mimeType := row.mime_type, content := row.content, flags := row.flags,
      expiration := row.expiration, type := row.type, dateAdded := row.dateAdded,
      lastModified := row.lastModified }
  jsoSet annotationsByPlaceId row.place_id (jsoSet annos (annoNameFor annoAttribsById row.anno_attribute_id) v)

/-- `slurpAnnotations`: scan `moz_annos` into `annotationsByPlaceId`. -/
def slurpAnnotations (annoAttribsById : List (Nat × String)) (rows : List AnnoRow) :
    List (Nat × AnnoDict) :=
  rows.foldl (slurpAnnotationsStep annoAttribsById) []

/-- One `moz_items_annos` row of `slurpBookmarkAnnotations`.  The source
reads the existing entry from `ctx.annotationsByPlaceId[row.item_id]` (not
from the bookmark map): if that place entry exists, the annotation is set
on the shared place-annotation object (mutating `annotationsByPlaceId`);
only otherwise is a fresh object stored under
`annotationsByBookmarkId[row.item_id]`. -/
def slurpBookmarkAnnotationsStep (annoAttribsById : List (Nat × String))
    (st : List (Nat × AnnoDict) × List (Nat × AnnoDict)) (row : ItemAnnoRow) :
    List (Nat × AnnoDict) × List (Nat × AnnoDict) :=
  let v : AnnoValue :=
    { mimeType := row.mime_type, content := row.content, flags := row.flags,
      expiration := row.expiration, type := row.type, dateAdded := row.dateAdded,
      lastModified := row.lastModified }
  let name := annoNameFor annoAttribsById row.anno_attribute_id
  match jsoGet st.1 row.item_id with
  | some annos => (jsoSet st.1 row.item_id (jsoSet annos name v), st.2)
  | none => (st.1, jsoSet st.2 row.item_id (jsoSet ([] : AnnoDict) name v))

/-- `slurpBookmarkAnnotations`: scan `moz_items_annos`, starting from the
already-built `annotationsByPlaceId`; returns the pair
`(annotationsByPlaceId, annotationsByBookmarkId)` after the scan. -/
def slurpBookmarkAnnotations (annoAttribsById : List (Nat × String))
    (annotationsByPlaceId : List (Nat × AnnoDict)) (rows : List ItemAnnoRow) :
    List (Nat × AnnoDict) × List (Nat × AnnoDict) :=
  rows.foldl (slurpBookmarkAnnotationsStep annoAttribsById) (annotationsByPlaceId, [])

/-! ## Visit chain builder (source lines 402-441) -/

/-- A `moz_historyvisits` row.  `from_visit` is 0 when there is no
originating visit (SQLite default). -/
structure VisitRow where
  id : Nat
  from_visit : Nat
  place_id : Nat
  visit_date : Int
  visit_type : Nat
  session : Nat
deriving DecidableEq, Repr

/-- The per-visit object assembled by `slurpHistoryVisits`. -/
structure VisitInfo where
  key : String
  prevKey : Option String
  type : Nat
  session : Nat
deriving DecidableEq, Repr

/-- The mutable state of the `slurpHistoryVisits` scan. -/
structure VisitSlurpState where
  visitsByPlaceId : List (Nat × List VisitInfo)
  keyByVisitId : List (Nat × String)
  lastTS : Int
  nextUnique : Nat
deriving DecidableEq, Repr

/-- One row of the `slurpHistoryVisits` scan (rows arrive ordered by
`visit_date` ascending).  The callback reads `visitsByPlaceId[row.place_id]`
into a local, computes the timestamp key with a tie-breaking suffix,
records the key in `keyByVisitId`, and builds `visitInfo` — which it then
drops on the floor: nothing is ever appended to `visitsByPlaceId`. -/
def slurpHistoryVisitsStep (st : VisitSlurpState) (row : VisitRow) : VisitSlurpState :=
  let _visits := jsoGet st.visitsByPlaceId row.place_id
  let key0 := lexiformTimestamp row.visit_date
  let uniqued :=
    if st.lastTS = row.visit_date then (key0 ++ "-" ++ toString st.nextUnique, st.lastTS, st.nextUnique + 1)
    else (key0, row.visit_date, 0)
  let keyBy := jsoSet st.keyByVisitId row.id uniqued.1
  let _visitInfo : VisitInfo :=
    { key := uniqued.1, prevKey := jsoGet keyBy row.from_visit,
      type := row.visit_type, session := row.session }
  { visitsByPlaceId := st.visitsByPlaceId, keyByVisitId := keyBy,
    lastTS := uniqued.2.1, nextUnique := uniqued.2.2 }

/-- `slurpHistoryVisits`: scan all visit rows (ordered by `visit_date`). -/
def slurpHistoryVisits (rows : List VisitRow) : VisitSlurpState :=
  rows.foldl slurpHistoryVisitsStep
    { visitsByPlaceId := [], keyByVisitId := [], lastTS := 0, nextUnique := 0 }

/-! ## Bookmark hierarchy builder (source lines 444-557) -/

/-- A `moz_bookmarks` row.  `fk` (the linked place id) is NULL for folders
and separators; `keyword_id` is NULL when the bookmark has no keyword. -/
structure MozBookmarkRow where
  id : Nat
  fk : Option Nat
  parent : Nat
  position : Int
  title : String
  keyword_id : Option Nat
  dateAdded : Int
  lastModified : Int
  guid : String
deriving DecidableEq, Repr

/-- The denormalized per-bookmark object (`hierInfo`) built by the
`slurpBookmarks` row callback.  The mutable `tags`/`kids`/`url` fields that
the source stores on the same object are modelled separately: `kids` as an
index-keyed map (the object arena is the flat row list, addressed by
position), `tags` via `tagsByPlaceId`, and `url` is only ever backfilled by
the place transform. -/
structure HierInfo where
  id : Nat
  placeId : Option Nat
  parentId : Nat
  position : Int
  title : String
  keyword : Option String
  dateAdded : Int
  lastModified : Int
  guid : String
  annotations : Option AnnoDict
deriving DecidableEq, Repr

/-- The `hierInfo` object built for one `moz_bookmarks` row: keyword ids are
resolved through `keywordsById` (a falsy id resolves to null), annotations
are looked up by bookmark id. -/
def hierInfoOfRow (keywordsById : List (Nat × String))
    (annotationsByBookmarkId : List (Nat × AnnoDict)) (row : MozBookmarkRow) : HierInfo :=
  { id := row.id, placeId := row.fk, parentId := row.parent, position := row.position,
    title := row.title,
    keyword := match row.keyword_id with
      | some kid => jsoGet keywordsById kid
      | none => none,
    dateAdded := row.dateAdded, lastModified := row.lastModified, guid := row.guid,
    annotations := jsoGet annotationsByBookmarkId row.id }

/-- The row phase of `slurpBookmarks`: build `flatBookmarks` and
`bookmarksByPlaceId`.  The source fetches `bookmarksByPlaceId[placeId]`,
creates a fresh array when the entry is missing, and pushes — but never
stores the fresh array back into the map, so a push lands in the map only
when the entry already existed (it never does, the map starts empty). -/
def slurpBookmarksRowStep (st : List HierInfo × List (Option Nat × List HierInfo))
    (hierInfo : HierInfo) : List HierInfo × List (Option Nat × List HierInfo) :=
  let flat := st.1 ++ [hierInfo]
  match jsoGet st.2 hierInfo.placeId with
  | some linkedBookmarks => (flat, jsoSet st.2 hierInfo.placeId (linkedBookmarks ++ [hierInfo]))
  | none => (flat, st.2)

/-- The full row scan of `slurpBookmarks`, producing
`(flatBookmarks, bookmarksByPlaceId)`. -/
def slurpBookmarksRowPhase (keywordsById : List (Nat × String))
    (annotationsByBookmarkId : List (Nat × AnnoDict)) (rows : List MozBookmarkRow) :
    List HierInfo × List (Option Nat × List HierInfo) :=
  (rows.map (hierInfoOfRow keywordsById annotationsByBookmarkId)).foldl slurpBookmarksRowStep ([], [])

/-- Index of the last row with a given bookmark id: `bookmarksById[id]`
is whichever row object was assigned last for that id. -/
def lastIndexById : List HierInfo → Nat → Option Nat
  | [], _ => none
  | r :: rs, bid =>
    match lastIndexById rs bid with
    | some j => some (j + 1)
    | none => if r.id = bid then some 0 else none

/-- The root-linking loop of the `slurpBookmarks` complete handler: for each
`(rootName, folderId)` of `moz_bookmarks_roots` in scan order, look up the
root's row object and overwrite its title with the root name.  Looking up a
missing root throws (`rootBookmark.title` on `undefined`). -/
def applyRootTitles : List HierInfo → List (String × Nat) → Except String (List HierInfo)
  | rows, [] => Except.ok rows
  | rows, (rootName, rootId) :: rest =>
    match lastIndexById rows rootId with
    | none => Except.error "TypeError: cannot set title of undefined"
    | some j =>
      match rows.get? j with
      | none => Except.error "unreachable: lastIndexById returned an index out of range"
      | some r => applyRootTitles (rows.set j { r with title := rootName }) rest

/-- The two maps produced by the child-linking loop. -/
structure TagsKids where
  tagsByPlaceId : List (Option Nat × List String)
  kids : List (Nat × List Nat)
deriving DecidableEq, Repr

/-- One iteration of the child-linking loop for the row at arena index `j`.
If the row's parent is the Tags root, push the parent object's title (the
root row, whose title the root loop set to the root name) onto
`tagsByPlaceId[placeId]`; otherwise, if the parent row exists, append the
row's index to the parent's `kids` list. -/
def linkStep (allRows : List HierInfo) (tagRootId : Option Nat) (st : TagsKids)
    (j : Nat) (r : HierInfo) : Except String TagsKids :=
  if some r.parentId = tagRootId then
    match lastIndexById allRows r.parentId with
    | none => Except.error "TypeError: cannot read title of undefined"
    | some k =>
      match allRows.get? k with
      | none => Except.error "unreachable: lastIndexById returned an index out of range"
      | some parentHierInfo =>
        let tags' := jsoSet st.tagsByPlaceId r.placeId
          (((jsoGet st.tagsByPlaceId r.placeId).getD []) ++ [parentHierInfo.title])
        Except.ok { st with tagsByPlaceId := tags' }
  else
    match lastIndexById allRows r.parentId with
    | some k => Except.ok { st with kids := jsoSet st.kids k (((jsoGet st.kids k).getD []) ++ [j]) }
    | none => Except.ok st

/-- The child-linking loop over the (title-propagated) flat bookmark list,
threading the arena index. -/
def linkAll (allRows : List HierInfo) (tagRootId : Option Nat) :
    Nat → List HierInfo → TagsKids → Except String TagsKids
  | _, [], st => Except.ok st
  | j, r :: rest, st =>
    match linkStep allRows tagRootId st j r with
    | Except.error e => Except.error e
    | Except.ok st' => linkAll allRows tagRootId (j + 1) rest st'

/-- The output of the `slurpBookmarks` complete handler. -/
structure LinkResult where
  hierRows : List HierInfo
  kids : List (Nat × List Nat)
  tagsByPlaceId : List (Option Nat × List String)
deriving DecidableEq, Repr

/-- The complete handler of `slurpBookmarks`: propagate root titles, then
link children to their parents and collect tags.  `TAG_ROOT_ID` is
`bookmarkRoots['tags']` (possibly `undefined` when no such root exists). -/
def slurpBookmarksLink (flat : List HierInfo) (roots : List (String × Nat)) :
    Except String LinkResult :=
  match applyRootTitles flat roots with
  | Except.error e => Except.error e
  | Except.ok rows' =>
    match linkAll rows' (jsoGet roots "tags") 0 rows' { tagsByPlaceId := [], kids := [] } with
    | Except.error e => Except.error e
    | Except.ok tk =>
      Except.ok { hierRows := rows', kids := tk.kids, tagsByPlaceId := tk.tagsByPlaceId }

/-! ## writeBookmarks (source lines 562-620) -/

/-- `traverseBookmark`, restricted to the `'B'` records it emits: the triple
`(depth, parentId, id)` that forms each bookmark record's composite key.
The JavaScript recursion is unbounded (it trusts the tree to be acyclic);
the `fuel` argument dominates any finite traversal. -/
def traverseBIds (allRows : List HierInfo) (kids : List (Nat × List Nat)) :
    Nat → Nat → Nat → List (Nat × Nat × Nat)
  | 0, _, _ => []
  | fuel + 1, depth, j =>
    match allRows.get? j with
    | none => []
    | some r =>
      (depth, r.parentId, r.id) ::
        ((jsoGet kids j).getD []).flatMap (fun k => traverseBIds allRows kids fuel (depth + 1) k)

/-- `writeBookmarks`, restricted to `'B'` record keys: traverse every root
of `bookmarkHierarchy` except the `'tags'` root (tags are normalized out),
starting at depth 0. -/
def writeBookmarksBRecords (res : LinkResult) (roots : List (String × Nat)) (fuel : Nat) :
    List (Nat × Nat × Nat) :=
  (roots.filter (fun p => p.1 ≠ "tags")).flatMap (fun p =>
    match lastIndexById res.hierRows p.2 with
    | some j => traverseBIds res.hierRows res.kids fuel 0 j
    | none => [])

/-- The ids that were appended to the child list of the arena node at index
`j` (the ids of the rows the linking loop made structural children there). -/
def kidIdsAt (res : LinkResult) (j : Nat) : List Nat :=
  ((jsoGet res.kids j).getD []).filterMap (fun i => (res.hierRows.get? i).map (fun r => r.id))

/-! ## Term extraction and search-index emission (source lines 622-674) -/

/-- `BATCH_LIMIT` from the source. -/
def BATCH_LIMIT : Nat := 1000

/-- `maybeAddTerm` from `extractTermsForPlace`: lowercase, drop short terms
and stop-words, then — as written in the source — push the term only when
`terms.indexOf(term) !== -1`, i.e. only when it is already present. -/
def maybeAddTerm (terms : List String) (t : String) : List String :=
  let term := jsToLower t
  if term.length < 3 then terms
  else if term = "the" ∨ term = "www" ∨ term = "com" ∨ term = "org" ∨ term = "net" then terms
  else if terms.contains term then terms ++ [term]
  else terms

/-- The result of `require('url').parse`, restricted to the two properties
the program reads.  URL parsing itself is an external collaborator; the
transform is parameterized over it. -/
structure ParsedUrl where
  hostname : Option String
  pathname : String
deriving DecidableEq, Repr

/-- `extractTermsForPlace(url, title, bookmarks, tags)`.  Token sources in
source order: dot-separated hostname labels without the last one, the
title's word split, the linked bookmarks' titles, then the tags.  The
bookmark loop reads `bookmarks.title` — a property of the *array*, which is
`undefined` — so its first iteration throws; with no linked bookmarks the
loop body never runs.  A falsy (empty) hostname or title is skipped. -/
def extractTermsForPlace (url : ParsedUrl) (title : Option String)
    (bookmarks : List HierInfo) (tags : List String) : Except String (List String) :=
  let terms : List String := []
  let terms := match url.hostname with
    | some h => if h ≠ "" then ((splitOnChar h '.').dropLast).foldl maybeAddTerm terms else terms
    | none => terms
  let terms := match title with
    | some s => if s ≠ "" then (splitNonWord s).foldl maybeAddTerm terms else terms
    | none => terms
  match bookmarks with
  | [] => Except.ok (tags.foldl maybeAddTerm terms)
  | _ :: _ => Except.error "TypeError: cannot read title of an array"

/-- `lowestPrefixToEmitGivenFrecency(frecency, length)`: all prefixes (down
to length 1) above the high-traffic threshold, otherwise the full length.
The second parameter is `Option` because the transform's call site passes
only one argument, leaving `length` be `undefined` (`none`). -/
def lowestPrefixToEmitGivenFrecency (frecency : Int) (length : Option Nat) : Option Nat :=
  if frecency > 10000 then some 1 else length

/-- JavaScript `magic.length >= lowest` where `lowest` may be `undefined`:
a comparison against `undefined` is `NaN`-valued and therefore false. -/
def jsGeLen (n : Nat) (lowest : Option Nat) : Bool :=
  match lowest with
  | some k => n ≥ k
  | none => false

/-- The `while (magic.length >= lowestPrefix)` loop of the transform's term
emission, collecting each `magic` (the term, then ever shorter slices).
The fuel argument dominates the loop whenever it terminates in JavaScript
(one character is dropped per iteration). -/
def emitMagicsLoop : Nat → String → Option Nat → List String
  | 0, _, _ => []
  | fuel + 1, magic, lowest =>
    if jsGeLen magic.length lowest then magic :: emitMagicsLoop fuel (magic.dropRight 1) lowest
    else []

/-- The magics emitted for one extracted term at a given frecency:
the transform calls `lowestPrefixToEmitGivenFrecency(row.frecency)` with no
second argument. -/
def emittedMagicsForTerm (frecency : Int) (term : String) : List String :=
  emitMagicsLoop (term.length + 1) term (lowestPrefixToEmitGivenFrecency frecency none)

/-! ## Record transformer (source lines 673-797) -/

/-- `MAX_FRECENCY` from the source. -/
def MAX_FRECENCY : Int := 1000000

/-- `FRECENCY_DIGITS` from the source. -/
def FRECENCY_DIGITS : Nat := 6

/-- A `moz_places` row, restricted to the columns the transform reads. -/
structure PlaceRow where
  id : Nat
  url : String
  rev_host : String
  title : Option String
  visit_count : Nat
  typed : Nat
  frecency : Int
  last_visit_date : Int
  guid : String
  favicon_id : Option Nat
deriving DecidableEq, Repr

/-- A favicon as slurped from `moz_favicons`. -/
structure FaviconValue where
  url : String
  data : String
  mimeType : String
  expiration : Int
deriving DecidableEq, Repr

/-- The `'I'` record value. -/
structure InfoValue where
  title : Option String
  visitCount : Nat
  typed : Nat
  frecency : Int
  lastVisitDate : Int
  guid : String
  favicon : Option FaviconValue
  annotations : Option AnnoDict
deriving DecidableEq, Repr

/-- The `'H'` record value. -/
structure HistValue where
  url : String
  prevKey : Option String
  type : Nat
  session : Nat
deriving DecidableEq, Repr

/-- A LevelDB record value (`valueEncoding: 'json'`): the distinct payload
shapes the converter writes. -/
inductive LevelValue where
  | null : LevelValue
  | urlVal : String → LevelValue
  | info : InfoValue → LevelValue
  | visitVal : HistValue → LevelValue
  | useCountVal : Nat → LevelValue
deriving DecidableEq, Repr

/-- The records the transform emits for one visit of a place: the
history-by-time record keyed by the visit's assigned key, and the
history-by-site record — whose key, as written in the source, is just
`'h', reversedHost, url` with no timestamp component. -/
def visitRecords (reversedHost url : String) (visit : VisitInfo) : List (String × LevelValue) :=
  [("H\x00" ++ visit.key,
    LevelValue.visitVal { url := url, prevKey := visit.prevKey, type := visit.type, session := visit.session }),
   ("h\x00" ++ reversedHost ++ "\x00" ++ url, LevelValue.null)]

/-- `emitAwesome(magic, term)` for a place row: the `'A'` record. -/
def emitAwesome (frecency : Int) (reversedHost pathname url : String)
    (magic term : String) : String × LevelValue :=
  ("A\x00" ++ magic ++ "\x00" ++ invertAndPadNumber frecency MAX_FRECENCY FRECENCY_DIGITS ++
     "\x00" ++ term ++ "\x00" ++ reversedHost ++ "\x00" ++ pathname,
   LevelValue.urlVal url)

/-- The prebuilt join indices `transformPlaceRecords` consults. -/
structure TransformCtx where
  annotationsByPlaceId : List (Nat × AnnoDict)
  bookmarksByPlaceId : List (Option Nat × List HierInfo)
  tagsByPlaceId : List (Option Nat × List String)
  visitsByPlaceId : List (Nat × List VisitInfo)
  inputHistoryByPlaceId : List (Nat × List (String × Nat))
  faviconsById : List (Nat × FaviconValue)
deriving Repr

/-- The mutable state of the place scan: flushed batches, the accumulating
batch, the row counter since the last flush, and the favicon dedup map. -/
structure TransformState where
  flushed : List (List (String × LevelValue))
  batch : List (String × LevelValue)
  batchCount : Nat
  faviconPersistedForReverseHost : List (String × Bool)
deriving Repr

/-- One place row of `transformPlaceRecords`: emit the `'I'` record (with
the favicon only for the first url seen for this reversed host), fix up the
linked bookmarks (mutation of the bookmark objects; no records), emit the
per-visit records, the awesomebar records for the extracted terms, and the
input-history records; then run the batch-limit check
`if (batchCount++ >= BATCH_LIMIT)`. -/
def transformRow (ctx : TransformCtx) (parse : String → ParsedUrl)
    (st : TransformState) (row : PlaceRow) : Except String TransformState :=
  let url := row.url
  let reversedHost := row.rev_host
  let placeId := row.id
  let persisted := (jsoGet st.faviconPersistedForReverseHost reversedHost).getD false
  let favicon := if persisted then none else row.favicon_id.bind (jsoGet ctx.faviconsById)
  let favMap := if persisted then st.faviconPersistedForReverseHost
    else jsoSet st.faviconPersistedForReverseHost reversedHost true
  let infoValue : InfoValue :=
    { title := row.title, visitCount := row.visit_count, typed := row.typed,
      frecency := row.frecency, lastVisitDate := row.last_visit_date, guid := row.guid,
      favicon := favicon, annotations := jsoGet ctx.annotationsByPlaceId row.id }
  let recsI := [("I\x00" ++ reversedHost ++ "\x00" ++ url, LevelValue.info infoValue)]
  let linkedBookmarks := (jsoGet ctx.bookmarksByPlaceId (some placeId)).getD []
  let visits := (jsoGet ctx.visitsByPlaceId placeId).getD []
  let recsH := visits.flatMap (fun visit => visitRecords reversedHost url visit)
  let tags := (jsoGet ctx.tagsByPlaceId (some placeId)).getD []
  let parsedUrl := parse url
  match extractTermsForPlace parsedUrl row.title linkedBookmarks tags with
  | Except.error e => Except.error e
  | Except.ok terms =>
    let recsA := terms.flatMap (fun term =>
      (emittedMagicsForTerm row.frecency term).map (fun magic =>
        emitAwesome row.frecency reversedHost parsedUrl.pathname url magic term))
    let inputs := (jsoGet ctx.inputHistoryByPlaceId placeId).getD []
    let recsInput := inputs.flatMap (fun p =>
      [("a\x00" ++ p.1 ++ "\x00" ++ url, LevelValue.useCountVal p.2),
       emitAwesome row.frecency reversedHost parsedUrl.pathname url p.1 p.1] ++
      (if p.1.length ≥ 2 then
        (if jsoGet inputs (p.1.dropRight 1) = none then
          [emitAwesome row.frecency reversedHost parsedUrl.pathname url (p.1.dropRight 1) p.1]
         else [])
       else []))
    let batch' := st.batch ++ recsI ++ recsH ++ recsA ++ recsInput
    if st.batchCount ≥ BATCH_LIMIT then
      Except.ok { flushed := st.flushed ++ [batch'], batch := [], batchCount := 0,
                  faviconPersistedForReverseHost := favMap }
    else
      Except.ok { flushed := st.flushed, batch := batch', batchCount := st.batchCount + 1,
                  faviconPersistedForReverseHost := favMap }

/-- The scan loop of `transformPlaceRecords` over place rows (ordered by
url, as in the SQL). -/
def transformRows (ctx : TransformCtx) (parse : String → ParsedUrl) :
    TransformState → List PlaceRow → Except String TransformState
  | st, [] => Except.ok st
  | st, row :: rest =>
    match transformRow ctx parse st row with
    | Except.error e => Except.error e
    | Except.ok st' => transformRows ctx parse st' rest

/-- `transformPlaceRecords`: run the scan and submit the final partial
batch in the completion callback; result is the list of submitted batches
in submission order. -/
def transformPlaceRecords (ctx : TransformCtx) (parse : String → ParsedUrl)
    (places : List PlaceRow) : Except String (List (List (String × LevelValue))) :=
  match transformRows ctx parse { flushed := [], batch := [], batchCount := 0, faviconPersistedForReverseHost := [] } places with
  | Except.error e => Except.error e
  | Except.ok st => Except.ok (st.flushed ++ [st.batch])

/-- All records the transform writes, in write order. -/
def allTransformRecords (ctx : TransformCtx) (parse : String → ParsedUrl)
    (places : List PlaceRow) : Except String (List (String × LevelValue)) :=
  match transformPlaceRecords ctx parse places with
  | Except.error e => Except.error e
  | Except.ok batches => Except.ok batches.flatten

/-- How many records of a batch list carry a key beginning with the given
namespace tag string. -/
def countKeysTagged (records : List (String × LevelValue)) (tag : String) : Nat :=
  (records.filter (fun r => tag.data.isPrefixOf r.1.data)).length

/-! ## Batch counter (source lines 777-794) -/

/-- The row-counter logic of the transform's batch handling, abstracted
over the number of place rows scanned: `if (batchCount++ >= BATCH_LIMIT)`
submits the accumulated batch (the current row included, since its puts
precede the check) and resets both the counter and the batch.  Returns the
number of rows in each mid-scan submitted batch, in submission order. -/
def midFlushRowCounts : Nat → Nat → List Nat
  | 0, _ => []
  | n + 1, batchCount =>
    if batchCount ≥ BATCH_LIMIT then (batchCount + 1) :: midFlushRowCounts n 0
    else midFlushRowCounts n (batchCount + 1)

/-- Mid-scan batch row counts for a scan over `n` place rows. -/
def transformMidFlushRowCounts (n : Nat) : List Nat := midFlushRowCounts n 0

/-- The number of rows accumulated in the final batch submitted by the
completion callback after scanning `n` place rows. -/
def finalBatchRowCount : Nat → Nat → Nat
  | 0, batchCount => batchCount
  | n + 1, batchCount =>
    if batchCount ≥ BATCH_LIMIT then finalBatchRowCount n 0
    else finalBatchRowCount n (batchCount + 1)

/-! ## The conversion pipeline (source lines 800-855) -/

/-- The phases of the converter. -/
inductive Phase where
  | slurpAnnotationAttribs : Phase
  | slurpAnnotations : Phase
  | slurpBookmarkAnnotations : Phase
  | slurpInputHistory : Phase
  | slurpKeywords : Phase
  | slurpFavicons : Phase
  | slurpHistoryVisits : Phase
  | slurpBookmarkRoots : Phase
  | slurpBookmarks : Phase
  | writeBookmarks : Phase
  | transformPlaceRecords : Phase
  | allDone : Phase
deriving DecidableEq, Repr

/-- The promise chain of `kickoffConversions`, phase by phase in order. -/
def kickoffConversionPhases : List Phase :=
  [Phase.slurpAnnotationAttribs, Phase.slurpAnnotations, Phase.slurpBookmarkAnnotations,
   Phase.slurpInputHistory, Phase.slurpKeywords, Phase.slurpFavicons,
   Phase.slurpHistoryVisits, Phase.slurpBookmarkRoots, Phase.slurpBookmarks,
   Phase.transformPlaceRecords, Phase.allDone]

/-! ## Concrete instances used by the claim theorems -/

/-- A snapshot's bookmark rows: the menu and tags roots plus one ordinary
bookmark linked to place 1. -/
def c1BookmarkRows : List MozBookmarkRow :=
  [{ id := 1, fk := none, parent := 0, position := 0, title := "", keyword_id := none,
     dateAdded := 0, lastModified := 0, guid := "root-menu" },
   { id := 4, fk := none, parent := 0, position := 0, title := "", keyword_id := none,
     dateAdded := 0, lastModified := 0, guid := "root-tags" },
   { id := 20, fk := some 1, parent := 1, position := 0, title := "Example bookmark", keyword_id := none,
     dateAdded := 0, lastModified := 0, guid := "bm-1" }]

/-- The `moz_bookmarks_roots` rows for the snapshot above. -/
def c1Roots : List (String × Nat) := [("menu", 1), ("tags", 4)]

/-- The one place row of the snapshot, the url the bookmark links to. -/
def c1Places : List PlaceRow :=
  [{ id := 1, url := "http://example.com/", rev_host := "moc.elpmaxe.", title := some "Example",
     visit_count := 1, typed := 0, frecency := 100, last_visit_date := 1300000000000,
     guid := "guidB", favicon_id := none }]

/-- URL parsing for the snapshot's one url. -/
def c1Parse : String → ParsedUrl := fun _ => { hostname := some "example.com", pathname := "/" }

/-- The transform context the pipeline hands to `transformPlaceRecords` for
this snapshot: `bookmarksByPlaceId` and `tagsByPlaceId` are exactly what
`slurpBookmarks` produced. -/
def c1Ctx : TransformCtx :=
  { annotationsByPlaceId := [],
    bookmarksByPlaceId := (slurpBookmarksRowPhase [] [] c1BookmarkRows).2,
    tagsByPlaceId :=
      ((slurpBookmarksLink (slurpBookmarksRowPhase [] [] c1BookmarkRows).1 c1Roots).toOption.map
        (fun r => r.tagsByPlaceId)).getD [],
    visitsByPlaceId := [], inputHistoryByPlaceId := [], faviconsById := [] }

/-- Everything the conversion writes for the snapshot above. -/
def c1Records : List (String × LevelValue) :=
  [("I\x00moc.elpmaxe.\x00http://example.com/",
    LevelValue.info
      { title := some "Example", visitCount := 1, typed := 0, frecency := 100,
        lastVisitDate := 1300000000000, guid := "guidB", favicon := none, annotations := none })]

/-- The round-trip scenario's two visit rows, `t1 < t2`, the second visit
originating from the first. -/
def c2VisitRows : List VisitRow :=
  [{ id := 1, from_visit := 0, place_id := 1, visit_date := 1100000000000, visit_type := 1, session := 1 },
   { id := 2, from_visit := 1, place_id := 1, visit_date := 1100000005000, visit_type := 1, session := 1 }]

/-- The round-trip scenario's single place row. -/
def c2Places : List PlaceRow :=
  [{ id := 1, url := "https://example.org/a", rev_host := "gro.elpmaxe.", title := some "Example Site",
     visit_count := 3, typed := 1, frecency := 50000, last_visit_date := 1100000005000,
     guid := "guidA", favicon_id := none }]

/-- URL parsing for the round-trip scenario's url. -/
def c2Parse : String → ParsedUrl := fun _ => { hostname := some "example.org", pathname := "/a" }

/-- The transform context for the round-trip scenario: `visitsByPlaceId`
is exactly what `slurpHistoryVisits` produced from the two visit rows. -/
def c2Ctx : TransformCtx :=
  { annotationsByPlaceId := [], bookmarksByPlaceId := [], tagsByPlaceId := [],
    visitsByPlaceId := (slurpHistoryVisits c2VisitRows).visitsByPlaceId,
    inputHistoryByPlaceId := [], faviconsById := [] }

/-- Everything the conversion writes for the round-trip scenario. -/
def c2Records : List (String × LevelValue) :=
  [("I\x00gro.elpmaxe.\x00https://example.org/a",
    LevelValue.info
      { title := some "Example Site", visitCount := 3, typed := 1, frecency := 50000,
        lastVisitDate := 1100000005000, guid := "guidA", favicon := none, annotations := none })]

/-- A parsed url whose hostname labels repeat the qualifying term "food". -/
def c5Url : ParsedUrl := { hostname := some "food.food.com", pathname := "/" }

/-- The flat bookmark list for the tag scenario: the Tags root and one
bookmark under it titled "work", linked to place 7. -/
def c6Flat : List HierInfo :=
  [{ id := 4, placeId := none, parentId := 0, position := 0, title := "Tags Folder", keyword := none,
     dateAdded := 0, lastModified := 0, guid := "rt", annotations := none },
   { id := 10, placeId := some 7, parentId := 4, position := 0, title := "work", keyword := none,
     dateAdded := 0, lastModified := 0, guid := "bw", annotations := none }]

/-- The root table for the tag scenario. -/
def c6Roots : List (String × Nat) := [("tags", 4)]

/-- The hierarchy `slurpBookmarks` builds for the tag scenario. -/
def c6Link : LinkResult :=
  { hierRows :=
      [{ id := 4, placeId := none, parentId := 0, position := 0, title := "tags", keyword := none,
         dateAdded := 0, lastModified := 0, guid := "rt", annotations := none },
       { id := 10, placeId := some 7, parentId := 4, position := 0, title := "work", keyword := none,
         dateAdded := 0, lastModified := 0, guid := "bw", annotations := none }],
    kids := [],
    tagsByPlaceId := [(some 7, ["tags"])] }

/-- A concrete visit as assembled by the visit chain builder. -/
def c7Visit : VisitInfo := { key := "0978393595000", prevKey := none, type := 1, session := 2 }

/-- The history-by-site key as the claim (and the source's own namespace
comment) describes it: `'h'`, reversed host, the visit's inverted-padded
timestamp key, then the url, NUL-separated.  This definition follows the
spec's words and exists only to be compared against the key the code
builds. -/
def hKeyPerSpec (reversedHost url : String) (visit : VisitInfo) : String :=
  "h\x00" ++ reversedHost ++ "\x00" ++ visit.key ++ "\x00" ++ url

/-- The flat bookmark list for the structural-exclusion scenario: two
roots, a tag bookmark under the Tags root, and an ordinary bookmark under
the menu root. -/
def c9Flat : List HierInfo :=
  [{ id := 1, placeId := none, parentId := 0, position := 0, title := "", keyword := none,
     dateAdded := 0, lastModified := 0, guid := "rm", annotations := none },
   { id := 4, placeId := none, parentId := 0, position := 0, title := "", keyword := none,
     dateAdded := 0, lastModified := 0, guid := "rt", annotations := none },
   { id := 10, placeId := some 7, parentId := 4, position := 1, title := "work", keyword := none,
     dateAdded := 0, lastModified := 0, guid := "bw", annotations := none },
   { id := 11, placeId := some 7, parentId := 1, position := 0, title := "Example", keyword := none,
     dateAdded := 0, lastModified := 0, guid := "be", annotations := none }]

/-- The root table for the structural-exclusion scenario. -/
def c9Roots : List (String × Nat) := [("menu", 1), ("tags", 4)]

/-- The tag bookmark of the scenario (the row with id 10 of `c9Flat`). -/
def c9TagBm : HierInfo :=
  { id := 10, placeId := some 7, parentId := 4, position := 1, title := "work", keyword := none,
    dateAdded := 0, lastModified := 0, guid := "bw", annotations := none }

/-- The hierarchy `slurpBookmarks` builds for the structural-exclusion
scenario. -/
def c9Res : LinkResult :=
  { hierRows :=
      [{ id := 1, placeId := none, parentId := 0, position := 0, title := "menu", keyword := none,
         dateAdded := 0, lastModified := 0, guid := "rm", annotations := none },
       { id := 4, placeId := none, parentId := 0, position := 0, title := "tags", keyword := none,
         dateAdded := 0, lastModified := 0, guid := "rt", annotations := none },
       { id := 10, placeId := some 7, parentId := 4, position := 1, title := "work", keyword := none,
         dateAdded := 0, lastModified := 0, guid := "bw", annotations := none },
       { id := 11, placeId := some 7, parentId := 1, position := 0, title := "Example", keyword := none,
         dateAdded := 0, lastModified := 0, guid := "be", annotations := none }],
    kids := [(0, [3])],
    tagsByPlaceId := [(some 7, ["tags"])] }

/-- The annotation attribute table for the frame scenario. -/
def c10Attribs : List (Nat × String) := [(1, "bookmarkProperties/loadInSidebar")]

/-- A place annotation previously loaded for place id 5. -/
def c10PlaceAnno : AnnoValue :=
  { mimeType := "text/plain", content := "a place note", flags := 0, expiration := 4, type := 3,
    dateAdded := 1, lastModified := 2 }

/-- The bookmark annotation carried by the scanned row. -/
def c10ItemAnno : AnnoValue :=
  { mimeType := "text/plain", content := "yes", flags := 0, expiration := 4, type := 3,
    dateAdded := 3, lastModified := 4 }

/-- `annotationsByPlaceId` as it stands before the bookmark-annotation
pass: place id 5 already has one annotation. -/
def c10PlaceAnnos : List (Nat × AnnoDict) := [(5, [("bookmarkProperties/description", c10PlaceAnno)])]

/-- One `moz_items_annos` row whose item id collides with place id 5. -/
def c10Rows : List ItemAnnoRow :=
  [{ item_id := 5, anno_attribute_id := 1, mime_type := "text/plain", content := "yes", flags := 0,
     expiration := 4, type := 3, dateAdded := 3, lastModified := 4 }]


/-! ## Helper lemmas -/

theorem jsoGet_jsoSet_self {κ α : Type} [DecidableEq κ] (m : List (κ × α)) (k : κ) (v : α) :
    jsoGet (jsoSet m k v) k = some v := by
  induction m with
  | nil => simp [jsoSet, jsoGet]
  | cons p rest ih =>
    obtain ⟨k', v'⟩ := p
    by_cases h : k' = k
    · simp [jsoSet, jsoGet, h]
    · simp [jsoSet, jsoGet, h, ih]

theorem jsoGet_jsoSet_ne {κ α : Type} [DecidableEq κ] (m : List (κ × α)) (k k'' : κ) (v : α)
    (h : k'' ≠ k) : jsoGet (jsoSet m k v) k'' = jsoGet m k'' := by
  have h' : ¬ (k = k'') := fun hh => h hh.symm
  induction m with
  | nil => simp [jsoSet, jsoGet, h']
  | cons p rest ih =>
    obtain ⟨k', v'⟩ := p
    by_cases hk : k' = k
    · subst hk
      simp [jsoSet, jsoGet, h']
    · by_cases hk'' : k' = k''
      · subst hk''
        simp [jsoSet, jsoGet, hk]
      · simp [jsoSet, jsoGet, hk, hk'', ih]

theorem jsoGet_mem {κ α : Type} [DecidableEq κ] (m : List (κ × α)) (k : κ) (v : α)
    (h : jsoGet m k = some v) : (k, v) ∈ m := by
  induction m with
  | nil => simp [jsoGet] at h
  | cons p rest ih =>
    obtain ⟨k', v'⟩ := p
    by_cases hk : k' = k
    · subst hk
      simp [jsoGet] at h
      subst h
      exact List.mem_cons_self _ _
    · simp [jsoGet, hk] at h
      exact List.mem_cons_of_mem _ (ih h)

theorem list_set_self {α : Type} : ∀ (l : List α) (j : Nat) (a : α),
    l.get? j = some a → l.set j a = l
  | [], _, _, h => Option.noConfusion h
  | x :: xs, 0, a, h => by
    have e : x = a := Option.some.inj h
    subst e
    rfl
  | x :: xs, j + 1, a, h => by
    have := list_set_self xs j a h
    show x :: xs.set j a = x :: xs
    rw [this]

theorem list_get_set_self {α : Type} : ∀ (l : List α) (j : Nat) (a : α),
    j < l.length → (l.set j a).get? j = some a
  | [], j, _, h => absurd h (by simp)
  | x :: xs, 0, a, _ => rfl
  | x :: xs, j + 1, a, h => list_get_set_self xs j a (Nat.lt_of_succ_lt_succ h)

theorem list_get_set_ne {α : Type} : ∀ (l : List α) (j k : Nat) (a : α),
    j ≠ k → (l.set k a).get? j = l.get? j
  | [], _, _, _, _ => rfl
  | x :: xs, 0, 0, a, h => absurd rfl h
  | x :: xs, 0, k + 1, a, h => rfl
  | x :: xs, j + 1, 0, a, h => rfl
  | x :: xs, j + 1, k + 1, a, h => list_get_set_ne xs j k a (fun hh => h (congrArg Nat.succ hh))

theorem list_get_lt {α : Type} : ∀ (l : List α) (j : Nat) (a : α),
    l.get? j = some a → j < l.length
  | [], _, _, h => Option.noConfusion h
  | x :: xs, 0, a, _ => Nat.succ_pos _
  | x :: xs, j + 1, a, h => Nat.succ_lt_succ (list_get_lt xs j a h)

theorem nodup_get_inj {α : Type} : ∀ (l : List α), l.Nodup → ∀ (i j : Nat) (x : α),
    l.get? i = some x → l.get? j = some x → i = j
  | [], _, _, _, _, hi, _ => Option.noConfusion hi
  | y :: ys, _, 0, 0, _, _, _ => rfl
  | y :: ys, h, 0, j + 1, x, hi, hj => by
    obtain ⟨hy, _⟩ := List.nodup_cons.mp h
    have e : y = x := Option.some.inj hi
    exact absurd (e ▸ List.get?_mem (hj : ys.get? j = some x)) hy
  | y :: ys, h, i + 1, 0, x, hi, hj => by
    obtain ⟨hy, _⟩ := List.nodup_cons.mp h
    have e : y = x := Option.some.inj hj
    exact absurd (e ▸ List.get?_mem (hi : ys.get? i = some x)) hy
  | y :: ys, h, i + 1, j + 1, x, hi, hj => by
    obtain ⟨_, hys⟩ := List.nodup_cons.mp h
    exact congrArg Nat.succ (nodup_get_inj ys hys i j x hi hj)

theorem slurpHistoryVisits_visits_pres : ∀ (rows : List VisitRow) (st : VisitSlurpState),
    (rows.foldl slurpHistoryVisitsStep st).visitsByPlaceId = st.visitsByPlaceId
  | [], st => rfl
  | row :: rest, st => by
    rw [List.foldl_cons]
    rw [slurpHistoryVisits_visits_pres rest]
    rfl

theorem slurpBookmarksRow_byPlace_pres : ∀ (l : List HierInfo) (st : List HierInfo × List (Option Nat × List HierInfo)),
    st.2 = [] → (l.foldl slurpBookmarksRowStep st).2 = []
  | [], st, h => h
  | r :: rest, st, h => by
    rw [List.foldl_cons]
    apply slurpBookmarksRow_byPlace_pres rest
    simp [slurpBookmarksRowStep, h, jsoGet]

theorem maybeAddTerm_nil (t : String) : maybeAddTerm [] t = [] := by
  simp [maybeAddTerm]

theorem foldl_maybeAddTerm_nil : ∀ (l : List String), l.foldl maybeAddTerm [] = []
  | [] => rfl
  | t :: rest => by
    rw [List.foldl_cons, maybeAddTerm_nil]
    exact foldl_maybeAddTerm_nil rest

theorem midFlushRowCounts_all_limit : ∀ (n batchCount : Nat), batchCount ≤ BATCH_LIMIT →
    ∀ c ∈ midFlushRowCounts n batchCount, c = BATCH_LIMIT + 1
  | 0, _, _, c, hc => by simp [midFlushRowCounts] at hc
  | n + 1, batchCount, hbc, c, hc => by
    unfold midFlushRowCounts at hc
    split at hc
    · rename_i hge
      have hbceq : batchCount = BATCH_LIMIT := le_antisymm hbc hge
      rcases List.mem_cons.mp hc with h | h
      · omega
      · exact midFlushRowCounts_all_limit n 0 (by omega) c h
    · exact midFlushRowCounts_all_limit n (batchCount + 1)
        (by rename_i hlt; omega) c hc

/-! ## Claim theorems -/

/-- C3 (code_bug evaluation): with the source's own parameters the codec
violates its contract inside the declared range.  For frecency
(`knownMaximum` 1000000, declared width 6), `encode(0)` is the 7-character
string "1000000" and `encode(1) < encode(0)` fails; for timestamps, the
epoch floor itself encodes to 13 characters against the declared
`DATE_DIGITS` of 12, and the newest legal date's key does not sort before
the oldest's.  Decoding (`max` minus the parsed digits) still round-trips,
but the fixed-width and order halves of the claimed contract fail at these
in-range inputs. -/
theorem c3_codec_contract_fails_in_range :
    invertAndPadNumber 1 MAX_FRECENCY FRECENCY_DIGITS = "999999" ∧
    invertAndPadNumber 0 MAX_FRECENCY FRECENCY_DIGITS = "1000000" ∧
    (invertAndPadNumber 0 MAX_FRECENCY FRECENCY_DIGITS).length ≠ FRECENCY_DIGITS ∧
    jsStrLt (invertAndPadNumber 1 MAX_FRECENCY FRECENCY_DIGITS)
      (invertAndPadNumber 0 MAX_FRECENCY FRECENCY_DIGITS) = false ∧
    lexiformTimestamp OLDEST_LEGAL_DATE = "1925078400000" ∧
    lexiformTimestamp MOST_FUTURE_LEGAL_DATE = "946684800000" ∧
    (lexiformTimestamp OLDEST_LEGAL_DATE).length ≠ DATE_DIGITS ∧
    jsStrLt (lexiformTimestamp MOST_FUTURE_LEGAL_DATE)
      (lexiformTimestamp OLDEST_LEGAL_DATE) = false := by
  refine ⟨by decide, by decide, by decide, by decide, by decide, by decide, by decide, by decide⟩

/-- C4 (code_bug evaluation): because the transform calls
`lowestPrefixToEmitGivenFrecency(row.frecency)` without the length
argument, a term of a low-frecency place emits no search-index entry at
all — the loop bound is `undefined`, so `magic.length >= lowestPrefix` is
false immediately — while a high-frecency place emits every prefix down
to length 1 as the claim says. -/
theorem c4_low_frecency_term_emits_nothing :
    emittedMagicsForTerm 5000 "food" = [] ∧
    lowestPrefixToEmitGivenFrecency 5000 none = none ∧
    emittedMagicsForTerm 20000 "food" = ["food", "foo", "fo", "f"] := by
  refine ⟨by decide, by decide, by decide⟩

/-- C5 (counterexample): on an input whose hostname labels, title words
and tags all repeat the qualifying term "food", `extractTermsForPlace`
returns the empty list — not a list containing duplicate occurrences of
the term. -/
theorem c5_repeated_term_input_yields_empty :
    extractTermsForPlace c5Url (some "Food food") [] ["food", "food"] = Except.ok [] := by
  rfl

/-- C5 (amended): the inverted dedup check (push only when the term is
already present) means no term is ever pushed, because the term list
starts empty: whenever `extractTermsForPlace` returns at all (no linked
bookmarks; with linked bookmarks the `bookmarks.title` read throws), it
returns the empty term list — duplicates never accumulate. -/
theorem c5_extract_terms_always_empty :
    (∀ (url : ParsedUrl) (title : Option String) (tags : List String),
      extractTermsForPlace url title [] tags = Except.ok []) ∧
    (∀ (url : ParsedUrl) (title : Option String) (b : HierInfo) (bs : List HierInfo)
      (tags : List String), (extractTermsForPlace url title (b :: bs) tags).toOption = none) := by
  constructor
  · intro url title tags
    unfold extractTermsForPlace
    cases url.hostname with
    | none =>
      cases title with
      | none => simp [foldl_maybeAddTerm_nil]
      | some s => split <;> simp [foldl_maybeAddTerm_nil]
    | some h =>
      cases title with
      | none => split <;> simp [foldl_maybeAddTerm_nil]
      | some s => split <;> split <;> simp [foldl_maybeAddTerm_nil]
  · intro url title b bs tags
    rfl

/-- C7 (code_bug evaluation): the history-by-site record the transform
emits for a visit is keyed `'h', reversedHost, url` — the inverted-padded
timestamp key component required by the claim (and by the source's own
`'h'` namespace comment) is missing, so the emitted key differs from the
specified one and every visit of a place collapses onto one key. -/
theorem c7_history_by_site_key_lacks_timestamp :
    visitRecords "gro.elpmaxe." "https://example.org/a" c7Visit =
      [("H\x00" ++ c7Visit.key,
        LevelValue.visitVal
          { url := "https://example.org/a", prevKey := none, type := 1, session := 2 }),
       ("h\x00gro.elpmaxe.\x00https://example.org/a", LevelValue.null)] ∧
    ("h\x00gro.elpmaxe.\x00https://example.org/a" : String) ≠
      hKeyPerSpec "gro.elpmaxe." "https://example.org/a" c7Visit := by
  refine ⟨by rfl, by decide⟩

set_option maxRecDepth 100000 in
/-- C8 (counterexample): scanning exactly 1000 place rows submits no
mid-scan batch at all (only the final batch is written at completion),
and the first mid-scan submission happens on the 1001st row with 1001
rows accumulated — not when the count reaches 1000 as the claim states. -/
theorem c8_flush_not_at_1000 :
    transformMidFlushRowCounts 1000 = [] ∧
    transformMidFlushRowCounts 1001 = [1001] := by
  refine ⟨by decide, by decide⟩

/-- C8 (amended): the post-increment test `batchCount++ >= BATCH_LIMIT`
lets one extra row in, so every mid-scan batch submission happens exactly
when the number of place rows accumulated since the last flush reaches
`BATCH_LIMIT + 1` (1001); a fresh batch then accumulates subsequent rows
and the final partial batch is submitted when the scan completes. -/
theorem c8_flush_at_limit_plus_one (n c : Nat) (hc : c ∈ transformMidFlushRowCounts n) :
    c = BATCH_LIMIT + 1 :=
  midFlushRowCounts_all_limit n 0 (by omega) c hc

set_option maxRecDepth 100000 in
/-- Witness for C8: the scan over 1001 rows really does produce a
mid-scan batch, and its row count is `BATCH_LIMIT + 1`. -/
theorem c8_flush_at_limit_plus_one_witness : (1001 : Nat) = BATCH_LIMIT + 1 :=
  c8_flush_at_limit_plus_one 1001 1001 (by decide)

/-- C10 (code_bug evaluation): the bookmark-annotation pass reads the
existing entry out of `annotationsByPlaceId` (a copy-paste from the place
pass), so a `moz_items_annos` row whose item id collides with a place id
that already has annotations stores the bookmark annotation into the
shared place-annotation object — `annotationsByPlaceId` changes — while
`annotationsByBookmarkId` stays empty. -/
theorem c10_bookmark_annos_mutate_place_annos :
    (slurpBookmarkAnnotations c10Attribs c10PlaceAnnos c10Rows).2 = [] ∧
    (slurpBookmarkAnnotations c10Attribs c10PlaceAnnos c10Rows).1 ≠ c10PlaceAnnos ∧
    (slurpBookmarkAnnotations c10Attribs c10PlaceAnnos c10Rows).1 =
      [(5, [("bookmarkProperties/description", c10PlaceAnno),
            ("bookmarkProperties/loadInSidebar", c10ItemAnno)])] := by
  refine ⟨by rfl, by decide, by rfl⟩

/-- C1 (code_bug evaluation): the conversion pipeline never writes any
bookmark records.  `kickoffConversions`' promise chain does not include
`writeBookmarks` at all; `slurpBookmarks` never stores the freshly created
per-place bookmark list back into `bookmarksByPlaceId` (so the reverse
index stays empty for every input); and on a snapshot with a bookmark
linked to a reachable place, the records the pipeline writes contain no
`'B'` and no `'b'` key. -/
theorem c1_pipeline_writes_no_bookmark_records :
    Phase.writeBookmarks ∉ kickoffConversionPhases ∧
    (∀ (kws : List (Nat × String)) (abm : List (Nat × AnnoDict)) (rows : List MozBookmarkRow),
      (slurpBookmarksRowPhase kws abm rows).2 = []) ∧
    allTransformRecords c1Ctx c1Parse c1Places = Except.ok c1Records ∧
    countKeysTagged c1Records "B\x00" = 0 ∧
    countKeysTagged c1Records "b\x00" = 0 := by
  refine ⟨by decide, ?_, by rfl, by decide, by decide⟩
  intro kws abm rows
  exact slurpBookmarksRow_byPlace_pres _ _ rfl

/-- C2 (code_bug evaluation): for the round-trip snapshot (one place, two
visits at `t1 < t2`, no bookmarks) the conversion output contains the one
`'I'` record but zero `'H'` and zero `'h'` records, because
`slurpHistoryVisits` builds each `visitInfo` and then discards it —
`visitsByPlaceId` stays empty for every input — so the transform's visit
loop never runs. -/
theorem c2_round_trip_emits_no_history_records :
    (∀ (rows : List VisitRow), (slurpHistoryVisits rows).visitsByPlaceId = []) ∧
    allTransformRecords c2Ctx c2Parse c2Places = Except.ok c2Records ∧
    countKeysTagged c2Records "H\x00" = 0 ∧
    countKeysTagged c2Records "h\x00" = 0 ∧
    countKeysTagged c2Records "I\x00" = 1 := by
  refine ⟨?_, by rfl, by decide, by decide, by decide⟩
  intro rows
  exact slurpHistoryVisits_visits_pres rows _

theorem list_get_map {α β : Type} (f : α → β) : ∀ (l : List α) (j : Nat),
    (l.map f).get? j = (l.get? j).map f
  | [], _ => rfl
  | _ :: _, 0 => rfl
  | _ :: xs, j + 1 => list_get_map f xs j

theorem applyRootTitles_skel : ∀ (roots : List (String × Nat)) (l l' : List HierInfo),
    applyRootTitles l roots = Except.ok l' →
    l'.map (fun r => (r.id, r.parentId, r.placeId)) = l.map (fun r => (r.id, r.parentId, r.placeId))
  | [], l, l', h => by
    simp [applyRootTitles] at h
    rw [h]
  | (rootName, rootId) :: rest, l, l', h => by
    unfold applyRootTitles at h
    split at h
    · exact Except.noConfusion h
    · split at h
      · exact Except.noConfusion h
      · rename_i j hli r hg
        rw [applyRootTitles_skel rest _ l' h]
        rw [List.map_set]
        apply list_set_self
        rw [list_get_map, hg]
        rfl

theorem skel_ids (l l' : List HierInfo)
    (h : l.map (fun r => (r.id, r.parentId, r.placeId)) = l'.map (fun r => (r.id, r.parentId, r.placeId))) :
    l.map (fun r => r.id) = l'.map (fun r => r.id) := by
  have := congrArg (List.map (fun t : Nat × Nat × Option Nat => t.1)) h
  simpa [List.map_map, Function.comp] using this

theorem lastIndexById_congr : ∀ (l l' : List HierInfo),
    l.map (fun r => r.id) = l'.map (fun r => r.id) → ∀ (x : Nat), lastIndexById l x = lastIndexById l' x
  | [], [], _, _ => rfl
  | [], r' :: rs', h, _ => by simp at h
  | r :: rs, [], h, _ => by simp at h
  | r :: rs, r' :: rs', h, x => by
    simp only [List.map_cons, List.cons.injEq] at h
    unfold lastIndexById
    rw [lastIndexById_congr rs rs' h.2 x, h.1]

theorem lastIndexById_get : ∀ (l : List HierInfo) (x : Nat) (j : Nat),
    lastIndexById l x = some j → ∃ r, l.get? j = some r ∧ r.id = x
  | [], x, j, h => Option.noConfusion h
  | r :: rs, x, j, h => by
    unfold lastIndexById at h
    cases hrs : lastIndexById rs x with
    | some j' =>
      rw [hrs] at h
      have hj : j = j' + 1 := (Option.some.inj h).symm
      subst hj
      obtain ⟨r', hr', hid⟩ := lastIndexById_get rs x j' hrs
      exact ⟨r', hr', hid⟩
    | none =>
      rw [hrs] at h
      by_cases hid : r.id = x
      · rw [if_pos hid] at h
        have hj : j = 0 := (Option.some.inj h).symm
        subst hj
        exact ⟨r, rfl, hid⟩
      · rw [if_neg hid] at h
        exact Option.noConfusion h

theorem applyRootTitles_ids (roots : List (String × Nat)) (l l' : List HierInfo)
    (h : applyRootTitles l roots = Except.ok l') :
    l'.map (fun r => r.id) = l.map (fun r => r.id) :=
  skel_ids l' l (applyRootTitles_skel roots l l' h)

theorem applyRootTitles_title_tags (T : Nat) :
    ∀ (roots : List (String × Nat)) (l l' : List HierInfo),
    applyRootTitles l roots = Except.ok l' →
    (∀ p ∈ roots, p.2 = T → p.1 = "tags") →
    (("tags", T) ∈ roots ∨
      ∀ (j : Nat) (r : HierInfo), lastIndexById l T = some j → l.get? j = some r → r.title = "tags") →
    ∀ (j : Nat) (r : HierInfo), lastIndexById l' T = some j → l'.get? j = some r → r.title = "tags"
  | [], l, l', h, _, hdisj => by
    simp [applyRootTitles] at h
    subst h
    rcases hdisj with hmem | hr
    · simp at hmem
    · exact hr
  | (rootName, rootId) :: rest, l, l', h, honly, hdisj => by
    unfold applyRootTitles at h
    split at h
    · exact Except.noConfusion h
    · split at h
      · exact Except.noConfusion h
      · rename_i xa k hlik xb rk hgk
        have hidsset : (l.set k { rk with title := rootName }).map (fun r => r.id) = l.map (fun r => r.id) := by
          rw [List.map_set]
          apply list_set_self
          rw [list_get_map, hgk]
          rfl
        have hlicongr := lastIndexById_congr _ _ hidsset
        apply applyRootTitles_title_tags T rest _ l' h (fun p hp => honly p (List.mem_cons_of_mem _ hp))
        by_cases hrid : rootId = T
        · right
          have hname : rootName = "tags" := honly (rootName, rootId) (List.mem_cons_self _ _) hrid
          intro j r hli hg
          rw [hlicongr T] at hli
          rw [← hrid] at hli
          rw [hlik] at hli
          have hj : j = k := (Option.some.inj hli).symm
          subst hj
          have := list_get_set_self l j ({ rk with title := rootName }) (list_get_lt l j rk hgk)
          rw [this] at hg
          have := Option.some.inj hg
          rw [← this, hname]
        · rcases hdisj with hmem | hr
          · rcases List.mem_cons.mp hmem with hh | hh
            · exact absurd (congrArg Prod.snd hh).symm hrid
            · exact Or.inl hh
          · right
            intro j r hli hg
            rw [hlicongr T] at hli
            have hjk : j ≠ k := by
              intro he
              obtain ⟨rT, hrT, hrTid⟩ := lastIndexById_get l T j hli
              obtain ⟨rR, hrR, hrRid⟩ := lastIndexById_get l rootId k hlik
              rw [← he] at hrR
              rw [hrT] at hrR
              have heq2 := Option.some.inj hrR
              apply hrid
              rw [← hrRid, ← heq2, hrTid]
            rw [list_get_set_ne l j k _ hjk] at hg
            exact hr j r hli hg

theorem linkStep_tags_mono (allRows : List HierInfo) (T? : Option Nat) (st : TagsKids)
    (j : Nat) (r : HierInfo) (st2 : TagsKids) (h : linkStep allRows T? st j r = Except.ok st2) :
    ∀ (k : Option Nat) (s : String),
      s ∈ (jsoGet st.tagsByPlaceId k).getD [] → s ∈ (jsoGet st2.tagsByPlaceId k).getD [] := by
  intro k s hs
  unfold linkStep at h
  split at h
  · split at h
    · exact Except.noConfusion h
    · split at h
      · exact Except.noConfusion h
      · have he := Except.ok.inj h
        subst he
        by_cases hk : k = r.placeId
        · subst hk
          rw [jsoGet_jsoSet_self]
          exact List.mem_append_left _ hs
        · rw [jsoGet_jsoSet_ne _ _ _ _ hk]
          exact hs
  · split at h
    · have he := Except.ok.inj h
      subst he
      exact hs
    · have he := Except.ok.inj h
      subst he
      exact hs

theorem linkAll_tags_mono (allRows : List HierInfo) (T? : Option Nat) :
    ∀ (l : List HierInfo) (j0 : Nat) (st st' : TagsKids),
    linkAll allRows T? j0 l st = Except.ok st' →
    ∀ (k : Option Nat) (s : String),
      s ∈ (jsoGet st.tagsByPlaceId k).getD [] → s ∈ (jsoGet st'.tagsByPlaceId k).getD []
  | [], _, st, st', h => by
    have he := Except.ok.inj h
    subst he
    exact fun _ _ hs => hs
  | r :: rest, j0, st, st', h => by
    unfold linkAll at h
    split at h
    · exact Except.noConfusion h
    · rename_i st2 hstep
      intro k s hs
      exact linkAll_tags_mono allRows T? rest (j0 + 1) st2 st' h k s
        (linkStep_tags_mono allRows T? st j0 r st2 hstep k s hs)

theorem linkStep_adds_tag (allRows : List HierInfo) (T : Nat) (s : String)
    (st : TagsKids) (j : Nat) (r : HierInfo) (st2 : TagsKids)
    (hpar : r.parentId = T)
    (htitle : ∀ (k : Nat) (rr : HierInfo),
      lastIndexById allRows T = some k → allRows.get? k = some rr → rr.title = s)
    (h : linkStep allRows (some T) st j r = Except.ok st2) :
    s ∈ (jsoGet st2.tagsByPlaceId r.placeId).getD [] := by
  unfold linkStep at h
  rw [hpar] at h
  rw [if_pos rfl] at h
  split at h
  · exact Except.noConfusion h
  · split at h
    · exact Except.noConfusion h
    · rename_i xa k hlik xb parent hget
      have he := Except.ok.inj h
      subst he
      rw [jsoGet_jsoSet_self]
      have ht : parent.title = s := htitle k parent hlik hget
      rw [ht]
      exact List.mem_append_right _ (List.mem_singleton.mpr rfl)

theorem linkAll_tag_added (allRows : List HierInfo) (T : Nat) (s : String)
    (htitle : ∀ (k : Nat) (rr : HierInfo),
      lastIndexById allRows T = some k → allRows.get? k = some rr → rr.title = s) :
    ∀ (l : List HierInfo) (j0 : Nat) (st st' : TagsKids) (b : HierInfo),
    b ∈ l → b.parentId = T →
    linkAll allRows (some T) j0 l st = Except.ok st' →
    s ∈ (jsoGet st'.tagsByPlaceId b.placeId).getD []
  | [], _, _, _, b, hb, _, _ => absurd hb (List.not_mem_nil b)
  | r :: rest, j0, st, st', b, hb, hpar, h => by
    unfold linkAll at h
    split at h
    · exact Except.noConfusion h
    · rename_i st2 hstep
      rcases List.mem_cons.mp hb with he | hmem
      · subst he
        exact linkAll_tags_mono allRows (some T) rest (j0 + 1) st2 st' h b.placeId s
          (linkStep_adds_tag allRows T s st j0 b st2 hpar htitle hstep)
      · exact linkAll_tag_added allRows T s htitle rest (j0 + 1) st2 st' b hmem hpar h

theorem linkStep_kids_prop (allRows : List HierInfo) (T? : Option Nat)
    (st : TagsKids) (j : Nat) (r : HierInfo) (st2 : TagsKids)
    (hget : allRows.get? j = some r)
    (h : linkStep allRows T? st j r = Except.ok st2)
    (hinv : ∀ (k i : Nat), i ∈ (jsoGet st.kids k).getD [] →
      ∃ rr, allRows.get? i = some rr ∧ ¬ some rr.parentId = T?) :
    ∀ (k i : Nat), i ∈ (jsoGet st2.kids k).getD [] →
      ∃ rr, allRows.get? i = some rr ∧ ¬ some rr.parentId = T? := by
  intro k i hi
  unfold linkStep at h
  split at h
  · split at h
    · exact Except.noConfusion h
    · split at h
      · exact Except.noConfusion h
      · have he := Except.ok.inj h
        subst he
        exact hinv k i hi
  · rename_i hcond
    split at h
    · rename_i kp hkp
      have he := Except.ok.inj h
      subst he
      by_cases hk : k = kp
      · subst hk
        rw [jsoGet_jsoSet_self] at hi
        rcases List.mem_append.mp hi with hold | hnew
        · exact hinv k i hold
        · have hij : i = j := List.mem_singleton.mp hnew
          subst hij
          exact ⟨r, hget, hcond⟩
      · rw [jsoGet_jsoSet_ne _ _ _ _ hk] at hi
        exact hinv k i hi
    · have he := Except.ok.inj h
      subst he
      exact hinv k i hi

theorem linkAll_kids_prop (allRows : List HierInfo) (T? : Option Nat) :
    ∀ (l : List HierInfo) (j0 : Nat) (st st' : TagsKids),
    (∀ (k : Nat), k < l.length → allRows.get? (j0 + k) = l.get? k) →
    linkAll allRows T? j0 l st = Except.ok st' →
    (∀ (k i : Nat), i ∈ (jsoGet st.kids k).getD [] →
      ∃ rr, allRows.get? i = some rr ∧ ¬ some rr.parentId = T?) →
    ∀ (k i : Nat), i ∈ (jsoGet st'.kids k).getD [] →
      ∃ rr, allRows.get? i = some rr ∧ ¬ some rr.parentId = T?
  | [], _, st, st', _, h, hinv => by
    have he := Except.ok.inj h
    subst he
    exact hinv
  | r :: rest, j0, st, st', hsuf, h, hinv => by
    unfold linkAll at h
    split at h
    · exact Except.noConfusion h
    · rename_i st2 hstep
      have hj0 : allRows.get? j0 = some r := by
        have := hsuf 0 (by simp)
        simpa using this
      apply linkAll_kids_prop allRows T? rest (j0 + 1) st2 st' ?_ h
        (linkStep_kids_prop allRows T? st j0 r st2 hj0 hstep hinv)
      intro k hk
      have hs := hsuf (k + 1) (by simpa using Nat.succ_lt_succ hk)
      rw [show j0 + 1 + k = j0 + (k + 1) by omega]
      exact hs

theorem traverseBIds_not_mem (allRows : List HierInfo) (kids : List (Nat × List Nat)) (bid : Nat)
    (hkids : ∀ (k i : Nat), i ∈ (jsoGet kids k).getD [] →
      ∀ rr, allRows.get? i = some rr → rr.id ≠ bid) :
    ∀ (fuel depth j : Nat), (∀ rr, allRows.get? j = some rr → rr.id ≠ bid) →
    bid ∉ (traverseBIds allRows kids fuel depth j).map (fun t => t.2.2)
  | 0, depth, j, _ => by simp [traverseBIds]
  | fuel + 1, depth, j, hstart => by
    unfold traverseBIds
    cases hg : allRows.get? j with
    | none => simp
    | some r =>
      intro hmem
      simp only [List.map_cons, List.mem_cons] at hmem
      rcases hmem with he | hmem2
      · exact hstart r hg he.symm
      · obtain ⟨t, ht, htid⟩ := List.mem_map.mp hmem2
        obtain ⟨i, hiK, hti⟩ := List.mem_flatMap.mp ht
        exact absurd (List.mem_map.mpr ⟨t, hti, htid⟩)
          (traverseBIds_not_mem allRows kids bid hkids fuel (depth + 1) i
            (fun rr hrr => hkids j i hiK rr hrr))

/-- C6 (counterexample): a bookmark titled "work" whose parent is the Tags
root (title propagated to the root name "tags") is recorded in
`tagsByPlaceId` under its own place id 7 with the *parent's* title "tags"
— not with its own title "work" as the claim states. -/
theorem c6_counterexample_tag_title :
    slurpBookmarksLink c6Flat c6Roots = Except.ok c6Link ∧
    jsoGet c6Link.tagsByPlaceId (some 7) = some ["tags"] ∧
    jsoGet c6Link.tagsByPlaceId (some 7) ≠ some ["work"] := by
  refine ⟨by rfl, by rfl, by decide⟩

/-- C6 (amended): for every non-root bookmark whose parent is the Tags
root, the hierarchy builder records a tag in the list keyed by that
bookmark's own place id (no new place id is introduced) — but the string
recorded is the parent object's title, which the root-linking pass set to
the root name "tags", not the bookmark's own title. -/
theorem c6_tag_is_parents_title (flat : List HierInfo) (roots : List (String × Nat)) (T : Nat)
    (b : HierInfo) (res : LinkResult)
    (hT : jsoGet roots "tags" = some T)
    (honly : ∀ p ∈ roots, p.2 = T → p.1 = "tags")
    (hb : b ∈ flat) (hpar : b.parentId = T)
    (hres : slurpBookmarksLink flat roots = Except.ok res) :
    "tags" ∈ (jsoGet res.tagsByPlaceId b.placeId).getD [] := by
  unfold slurpBookmarksLink at hres
  split at hres
  · exact Except.noConfusion hres
  · rename_i rows' hart
    split at hres
    · exact Except.noConfusion hres
    · rename_i tk hla
      have he := Except.ok.inj hres
      have htagsR : res.tagsByPlaceId = tk.tagsByPlaceId := by rw [← he]
      rw [htagsR]
      rw [hT] at hla
      obtain ⟨jb, hjb⟩ := List.get?_of_mem hb
      have hskel := applyRootTitles_skel roots flat rows' hart
      have hsk : (rows'.get? jb).map (fun r => (r.id, r.parentId, r.placeId)) =
          some (b.id, b.parentId, b.placeId) := by
        rw [← list_get_map, hskel, list_get_map, hjb]
        rfl
      cases hgb : rows'.get? jb with
      | none => rw [hgb] at hsk; exact Option.noConfusion hsk
      | some b' =>
        rw [hgb] at hsk
        have hsk' := Option.some.inj hsk
        have hpar' : b'.parentId = T := by
          have h1 : b'.parentId = b.parentId :=
            congrArg (fun t : Nat × Nat × Option Nat => t.2.1) hsk'
          rw [h1, hpar]
        have hpl' : b'.placeId = b.placeId :=
          congrArg (fun t : Nat × Nat × Option Nat => t.2.2) hsk'
        have htitle : ∀ (k : Nat) (rr : HierInfo),
            lastIndexById rows' T = some k → rows'.get? k = some rr → rr.title = "tags" :=
          applyRootTitles_title_tags T roots flat rows' hart honly
            (Or.inl (jsoGet_mem roots "tags" T hT))
        have hmem := linkAll_tag_added rows' T "tags" htitle rows' 0 _ tk b'
          (List.get?_mem hgb) hpar' hla
        rw [hpl'] at hmem
        exact hmem

/-- Witness for C6 (amended): in the concrete tag scenario the "work"
bookmark's place id 7 really does carry the tag "tags". -/
theorem c6_tag_is_parents_title_witness :
    "tags" ∈ (jsoGet c6Link.tagsByPlaceId
      ({ id := 10, placeId := some 7, parentId := 4, position := 0, title := "work",
         keyword := none, dateAdded := 0, lastModified := 0, guid := "bw",
         annotations := none } : HierInfo).placeId).getD [] :=
  c6_tag_is_parents_title c6Flat c6Roots 4
    { id := 10, placeId := some 7, parentId := 4, position := 0, title := "work",
      keyword := none, dateAdded := 0, lastModified := 0, guid := "bw", annotations := none }
    c6Link (by rfl) (by decide) (by decide) (by rfl) (by rfl)

/-- C9 (confirmed): a bookmark whose parent is the Tags root (and which is
not itself one of the root folders) is appended to no parent's child list,
and the bookmark-tree traversal — which starts only from the non-`'tags'`
roots — never emits a `'B'` record carrying that bookmark's id, for any
traversal depth budget. -/
theorem c9_tag_bookmark_never_structural (flat : List HierInfo) (roots : List (String × Nat))
    (T : Nat) (b : HierInfo) (res : LinkResult) (j fuel : Nat)
    (hT : jsoGet roots "tags" = some T)
    (hb : b ∈ flat) (hpar : b.parentId = T)
    (hroot : ∀ p ∈ roots, p.2 ≠ b.id)
    (hnodup : (flat.map (fun r => r.id)).Nodup)
    (hres : slurpBookmarksLink flat roots = Except.ok res) :
    b.id ∉ kidIdsAt res j ∧
    b.id ∉ (writeBookmarksBRecords res roots fuel).map (fun t => t.2.2) := by
  unfold slurpBookmarksLink at hres
  split at hres
  · exact Except.noConfusion hres
  · rename_i rows' hart
    split at hres
    · exact Except.noConfusion hres
    · rename_i tk hla
      have he := Except.ok.inj hres
      have hkidR : res.kids = tk.kids := by rw [← he]
      have hrowsR : res.hierRows = rows' := by rw [← he]
      rw [hT] at hla
      have hids : rows'.map (fun r => r.id) = flat.map (fun r => r.id) :=
        applyRootTitles_ids roots flat rows' hart
      have hnodup' : (rows'.map (fun r => r.id)).Nodup := by rw [hids]; exact hnodup
      obtain ⟨jb, hjb⟩ := List.get?_of_mem hb
      have hskel := applyRootTitles_skel roots flat rows' hart
      have hsk : (rows'.get? jb).map (fun r => (r.id, r.parentId, r.placeId)) =
          some (b.id, b.parentId, b.placeId) := by
        rw [← list_get_map, hskel, list_get_map, hjb]
        rfl
      cases hgb : rows'.get? jb with
      | none => rw [hgb] at hsk; exact Option.noConfusion hsk
      | some b' =>
        rw [hgb] at hsk
        have hsk' := Option.some.inj hsk
        have hid' : b'.id = b.id := congrArg (fun t : Nat × Nat × Option Nat => t.1) hsk'
        have hpar' : b'.parentId = T := by
          have h1 : b'.parentId = b.parentId :=
            congrArg (fun t : Nat × Nat × Option Nat => t.2.1) hsk'
          rw [h1, hpar]
        have hkidsprop := linkAll_kids_prop rows' (some T) rows' 0
          { tagsByPlaceId := [], kids := [] } tk
          (by intro k hk; simp) hla
          (by intro k i hi; simp [jsoGet] at hi)
        have hsafe : ∀ (k i : Nat), i ∈ (jsoGet tk.kids k).getD [] →
            ∀ rr, rows'.get? i = some rr → rr.id ≠ b.id := by
          intro k i hi rr hrr hreq
          obtain ⟨rr0, hrr0, hpar0⟩ := hkidsprop k i hi
          rw [hrr] at hrr0
          have hrreq : rr = rr0 := Option.some.inj hrr0
          have hgi : (rows'.map (fun r => r.id)).get? i = some b.id := by
            rw [list_get_map, hrr]
            simp [hreq]
          have hgjb : (rows'.map (fun r => r.id)).get? jb = some b.id := by
            rw [list_get_map, hgb]
            simp [hid']
          have hij : i = jb := nodup_get_inj _ hnodup' i jb b.id hgi hgjb
          subst hij
          rw [hgb] at hrr
          have hrb : b' = rr := Option.some.inj hrr
          apply hpar0
          rw [← hrreq, ← hrb, hpar']
        constructor
        · intro hmem
          unfold kidIdsAt at hmem
          rw [hkidR, hrowsR] at hmem
          obtain ⟨i, hi, hieq⟩ := List.mem_filterMap.mp hmem
          cases hgi : rows'.get? i with
          | none => rw [hgi] at hieq; exact Option.noConfusion hieq
          | some ri =>
            rw [hgi] at hieq
            have : ri.id = b.id := Option.some.inj hieq
            exact hsafe j i hi ri hgi this
        · intro hmem
          obtain ⟨t, ht, htid⟩ := List.mem_map.mp hmem
          unfold writeBookmarksBRecords at ht
          rw [hkidR, hrowsR] at ht
          obtain ⟨p, hpf, ht2⟩ := List.mem_flatMap.mp ht
          have hproots : p ∈ roots := (List.mem_filter.mp hpf).1
          cases hli : lastIndexById rows' p.2 with
          | none => rw [hli] at ht2; simp at ht2
          | some k0 =>
            rw [hli] at ht2
            obtain ⟨r0, hr0, hr0id⟩ := lastIndexById_get rows' p.2 k0 hli
            have hstart : ∀ rr, rows'.get? k0 = some rr → rr.id ≠ b.id := by
              intro rr hrr hreq
              rw [hr0] at hrr
              have hr0eq : r0 = rr := Option.some.inj hrr
              apply hroot p hproots
              rw [← hr0id, hr0eq, hreq]
            exact absurd (List.mem_map.mpr ⟨t, ht2, htid⟩)
              (traverseBIds_not_mem rows' tk.kids b.id hsafe fuel 0 k0 hstart)

/-- Witness for C9: in the concrete scenario the tag bookmark (id 10)
appears in no child list and in no emitted `'B'` record triple. -/
theorem c9_tag_bookmark_never_structural_witness :
    c9TagBm.id ∉ kidIdsAt c9Res 0 ∧
    c9TagBm.id ∉ (writeBookmarksBRecords c9Res c9Roots 5).map (fun t => t.2.2) :=
  c9_tag_bookmark_never_structural c9Flat c9Roots 4 c9TagBm c9Res 0 5
    (by rfl) (by decide) (by rfl) (by decide) (by decide) (by rfl)
